import Mathlib

/-!
Shallow embedding of the extraction core of `EDGAR_SEC.py` (SEC EDGAR financial
data extractor) and verification of its specification.

The embedded functions are `get_value_for_accession` (lines 116-131),
`process_financial_statement` (lines 133-158) and the three statement
processors with their built-in report definitions (lines 160-222).

Python dictionaries are modelled as insertion-ordered association lists
(`List (key × value)`): lookup is first-match, and assignment `d[k] = v`
updates the first entry with key `k` in place or appends a fresh entry at the
end, which is exactly CPython dict semantics.  Numeric observation values are
modelled as `Int`; the core never computes with values, it only copies them
from input to output, so the choice of numeric carrier is irrelevant.
A Python function that can raise is modelled as returning `Option` with
`none` for the raised exception.
-/

set_option autoImplicit false

namespace EdgarSec

/-- One reported fact from the SEC facts JSON: the entries of
`item_data['units']['USD']`.  The source reads only the `accn` and `val`
fields; the period/frame fields it never touches are omitted. -/
structure Observation where
  accn : String
  val : Int
deriving DecidableEq, Repr

/-- The per-concept record (`item_data` in the source): a JSON object that may
or may not carry a `units` key; under `units`, a dict from unit name (such as
`"USD"`) to the ordered list of observations. -/
structure ItemData where
  units : Option (List (String × List Observation))
deriving DecidableEq, Repr

/-- taxonomy → concept → ItemData, the `facts_data` dict of the source. -/
abbrev TaxonomyFacts := List (String × ItemData)

abbrev FactsRepository := List (String × TaxonomyFacts)

/-- A report definition: insertion-ordered dict from display label to
`taxonomy:concept` key (the `items` argument of the source). -/
abbrev ReportItems := List (String × String)

/-- The produced row: insertion-ordered dict from display label to value
(the `data` dict of the source, with the pandas single-row wrapping of each
value as `[value]` dropped). -/
abbrev ReportRow := List (String × Int)

/-- `item_data['units']['USD']` when both the `units` key and the `"USD"` key
are present, mirroring the guard `'units' in item_data and 'USD' in
item_data['units']` on line 127. -/
def usdEntries (item_data : ItemData) : Option (List Observation) :=
  match item_data.units with
  | some units => units.lookup "USD"
  | none => none

/-- Lines 116-131: scan `item_data['units']['USD']` in order and return the
`val` of the first entry whose `accn` equals the target accession number;
`None` when the `units` or `"USD"` key is absent or no entry matches. -/
def get_value_for_accession (item_data : ItemData) (accession_number : String) :
    Option Int :=
  match usdEntries item_data with
  | some entries =>
    (entries.find? (fun entry => entry.accn == accession_number)).map Observation.val
  | none => none

/-- Python `str.split(sep)` for a one-character separator: accumulator holds
the current field reversed. -/
def splitCharAux (sep : Char) : List Char → List Char → List String
  | [], acc => [String.mk acc.reverse]
  | c :: cs, acc =>
    if c = sep then String.mk acc.reverse :: splitCharAux sep cs []
    else splitCharAux sep cs (c :: acc)

/-- Python `s.split(':')`: every occurrence of the separator splits, empty
fields are kept (`"a:".split(':') == ['a', '']`, `"".split(':') == ['']`). -/
def pySplitColon (s : String) : List String :=
  splitCharAux ':' s.toList []

/-- Line 148, `taxonomy, concept = item_key.split(':')`: the unpacking
succeeds exactly when the split yields two fields; on any other arity Python
raises `ValueError`, modelled by `none`. -/
def splitKey (item_key : String) : Option (String × String) :=
  match pySplitColon item_key with
  | [taxonomy, concept] => some (taxonomy, concept)
  | _ => none

/-- Line 149's guard plus the indexing on line 150:
`facts_data[taxonomy][concept]` when `taxonomy in facts_data and concept in
facts_data[taxonomy]`, and `none` otherwise. -/
def conceptLookup (facts_data : FactsRepository) (taxonomy concept : String) :
    Option ItemData :=
  match facts_data.lookup taxonomy with
  | some taxonomyFacts => taxonomyFacts.lookup concept
  | none => none

/-- The value the loop body of lines 148-156 would store for one
`taxonomy:concept` pair: `none` covers both skip branches (taxonomy or concept
absent; lookup not-found), which differ in the source only by their log
message. -/
def conceptValue (facts_data : FactsRepository) (taxonomy concept : String)
    (accession_number : String) : Option Int :=
  match conceptLookup facts_data taxonomy concept with
  | some item_data => get_value_for_accession item_data accession_number
  | none => none

/-- CPython dict assignment `d[k] = v` on an association list: overwrite the
first entry with key `k` in place, or append `(k, v)` when `k` is fresh. -/
def dictSet (d : ReportRow) (k : String) (v : Int) : ReportRow :=
  match d with
  | [] => [(k, v)]
  | (k', v') :: rest => if k' == k then (k, v) :: rest else (k', v') :: dictSet rest k v

/-- The `for label, item_key in items.items()` loop of lines 147-156, carrying
the `data` dict; `none` models the `ValueError` raised when an `item_key`
does not split into exactly two fields. -/
def processItems (facts_data : FactsRepository) (accession_number : String) :
    ReportItems → ReportRow → Option ReportRow
  | [], data => some data
  | (label, item_key) :: rest, data =>
    match splitKey item_key with
    | some (taxonomy, concept) =>
      match conceptLookup facts_data taxonomy concept with
      | some item_data =>
        match get_value_for_accession item_data accession_number with
        | some value => processItems facts_data accession_number rest (dictSet data label value)
        | none => processItems facts_data accession_number rest data
      | none => processItems facts_data accession_number rest data
    | none => none

/-- Lines 133-158: build the row dict from an empty dict.  `filing_date` is
accepted and never read, exactly as in the source. -/
def process_financial_statement (facts_data : FactsRepository) (items : ReportItems)
    (filing_date accession_number : String) : Option ReportRow :=
  processItems facts_data accession_number items []

/-- Lines 172-179: the income-statement report definition. -/
def income_items : ReportItems :=
  [("Revenue", "us-gaap:Revenues"),
   ("Cost of Revenue", "us-gaap:CostOfRevenue"),
   ("Gross Profit", "us-gaap:GrossProfit"),
   ("Operating Expenses", "us-gaap:OperatingExpenses"),
   ("Operating Income", "us-gaap:OperatingIncomeLoss"),
   ("Net Income", "us-gaap:NetIncomeLoss")]

/-- Lines 194-199: the cash-flow report definition. -/
def cash_flow_items : ReportItems :=
  [("Cash from Operating Activities", "us-gaap:NetCashProvidedByUsedInOperatingActivities"),
   ("Cash from Investing Activities", "us-gaap:NetCashProvidedByUsedInInvestingActivities"),
   ("Cash from Financing Activities", "us-gaap:NetCashProvidedByUsedInFinancingActivities"),
   ("Net Change in Cash", "us-gaap:NetIncreaseDecreaseInCash")]

/-- Lines 214-221: the balance-sheet report definition. -/
def balance_sheet_items : ReportItems :=
  [("Total Assets", "us-gaap:Assets"),
   ("Total Liabilities", "us-gaap:Liabilities"),
   ("Total Equity", "us-gaap:StockholdersEquity"),
   ("Cash and Cash Equivalents", "us-gaap:CashAndCashEquivalentsAtCarryingValue"),
   ("Total Current Assets", "us-gaap:AssetsCurrent"),
   ("Total Current Liabilities", "us-gaap:LiabilitiesCurrent")]

/-- Lines 160-180. -/
def process_income_statement (facts_data : FactsRepository)
    (filing_date accession_number : String) : Option ReportRow :=
  process_financial_statement facts_data income_items filing_date accession_number

/-- Lines 182-200. -/
def process_cash_flow_statement (facts_data : FactsRepository)
    (filing_date accession_number : String) : Option ReportRow :=
  process_financial_statement facts_data cash_flow_items filing_date accession_number

/-- Lines 202-222. -/
def process_balance_sheet (facts_data : FactsRepository)
    (filing_date accession_number : String) : Option ReportRow :=
  process_financial_statement facts_data balance_sheet_items filing_date accession_number

/-! ### Concrete data used in the spec's worked examples -/

/-- An item record whose USD sequence is `[{accn:"A",val:10},{accn:"B",val:20}]`. -/
def exItemAB : ItemData :=
  ⟨some [("USD", [⟨"A", 10⟩, ⟨"B", 20⟩])]⟩

/-- The same record with its two USD observations swapped. -/
def exItemBA : ItemData :=
  ⟨some [("USD", [⟨"B", 20⟩, ⟨"A", 10⟩])]⟩

/-- The spec's end-to-end repository: concepts `Revenues` and `NetIncomeLoss`
under taxonomy `ns`, each with a single observation for accession `X1`. -/
def exRepoX1 : FactsRepository :=
  [("ns", [("Revenues", ⟨some [("USD", [⟨"X1", 1000⟩])]⟩),
           ("NetIncomeLoss", ⟨some [("USD", [⟨"X1", 200⟩])]⟩)])]

/-- The income-statement definition restricted to Revenue and Net Income,
pointed at taxonomy `ns`, as in the spec's end-to-end scenario. -/
def exItemsRN : ReportItems :=
  [("Revenue", "ns:Revenues"), ("Net Income", "ns:NetIncomeLoss")]

/-- A repository containing only concept `a` (with a value at accession `T`). -/
def exRepoA : FactsRepository :=
  [("ns", [("a", ⟨some [("USD", [⟨"T", 42⟩])]⟩)])]

/-- A definition with labels `X ↦ ns:a` and `Y ↦ ns:b`. -/
def exItemsXY : ReportItems :=
  [("X", "ns:a"), ("Y", "ns:b")]

/-! ### Helper lemmas -/

/-- Unfolding equation for one pass of the projection loop. -/
theorem processItems_cons (facts : FactsRepository) (a l k : String)
    (rest : ReportItems) (data : ReportRow) :
    processItems facts a ((l, k) :: rest) data =
      match splitKey k with
      | some (taxonomy, concept) =>
        match conceptLookup facts taxonomy concept with
        | some item_data =>
          match get_value_for_accession item_data a with
          | some value => processItems facts a rest (dictSet data l value)
          | none => processItems facts a rest data
        | none => processItems facts a rest data
      | none => none := rfl

/-- A malformed item key aborts the loop (the modelled `ValueError`). -/
theorem processItems_cons_bad (facts : FactsRepository) (a l k : String)
    (rest : ReportItems) (data : ReportRow) (hsk : splitKey k = none) :
    processItems facts a ((l, k) :: rest) data = none := by
  rw [processItems_cons, hsk]

/-- A label that resolves to no value leaves the row dict untouched. -/
theorem processItems_cons_skip (facts : FactsRepository) (a l k t c : String)
    (rest : ReportItems) (data : ReportRow)
    (hsk : splitKey k = some (t, c)) (hcv : conceptValue facts t c a = none) :
    processItems facts a ((l, k) :: rest) data = processItems facts a rest data := by
  unfold conceptValue at hcv
  simp only [processItems_cons, hsk]
  cases hcl : conceptLookup facts t c with
  | none => simp [hcl]
  | some item_data =>
    simp only [hcl] at hcv
    simp [hcl, hcv]

/-- A label that resolves to a value is assigned into the row dict. -/
theorem processItems_cons_set (facts : FactsRepository) (a l k t c : String)
    (v : Int) (rest : ReportItems) (data : ReportRow)
    (hsk : splitKey k = some (t, c)) (hcv : conceptValue facts t c a = some v) :
    processItems facts a ((l, k) :: rest) data =
      processItems facts a rest (dictSet data l v) := by
  unfold conceptValue at hcv
  simp only [processItems_cons, hsk]
  cases hcl : conceptLookup facts t c with
  | none => rw [hcl] at hcv; exact absurd hcv (by simp)
  | some item_data =>
    simp only [hcl] at hcv
    simp [hcl, hcv]

/-- A value produced by the loop body decomposes into a present item record
and a successful lookup on it. -/
theorem conceptValue_some_elim (facts : FactsRepository) (t c a : String)
    (v : Int) (h : conceptValue facts t c a = some v) :
    ∃ item_data, conceptLookup facts t c = some item_data ∧
      get_value_for_accession item_data a = some v := by
  unfold conceptValue at h
  cases hcl : conceptLookup facts t c with
  | none => rw [hcl] at h; exact absurd h (by simp)
  | some item_data => rw [hcl] at h; exact ⟨item_data, rfl, h⟩

/-- A successful lookup decomposes into a USD sequence and a first-matching
entry. -/
theorem get_value_some_elim (item : ItemData) (a : String) (v : Int)
    (h : get_value_for_accession item a = some v) :
    ∃ obs e, usdEntries item = some obs ∧
      obs.find? (fun o => o.accn == a) = some e ∧ v = e.val := by
  unfold get_value_for_accession at h
  cases hu : usdEntries item with
  | none => rw [hu] at h; exact absurd h (by simp)
  | some obs =>
    rw [hu, Option.map_eq_some'] at h
    obtain ⟨e, he, hev⟩ := h
    exact ⟨obs, e, rfl, he, hev.symm⟩

/-- The keys after a dict assignment are the old keys plus the assigned key. -/
theorem mem_keys_dictSet (x k : String) (v : Int) :
    ∀ d : ReportRow, (x ∈ (dictSet d k v).map Prod.fst ↔ x ∈ d.map Prod.fst ∨ x = k)
  | [] => by simp [dictSet]
  | (k', v') :: rest => by
    unfold dictSet
    by_cases h : k' == k
    · rw [if_pos h]
      have hk : k' = k := by simpa using h
      subst hk
      simp only [List.map_cons, List.mem_cons]
      tauto
    · rw [if_neg h]
      simp only [List.map_cons, List.mem_cons, mem_keys_dictSet x k v rest]
      tauto

/-- Dict assignment keeps the keys duplicate-free. -/
theorem nodup_keys_dictSet (k : String) (v : Int) :
    ∀ d : ReportRow, (d.map Prod.fst).Nodup → ((dictSet d k v).map Prod.fst).Nodup
  | [], _ => by simp [dictSet]
  | (k', v') :: rest, hd => by
    simp only [List.map_cons, List.nodup_cons] at hd
    obtain ⟨hk', hrest⟩ := hd
    unfold dictSet
    by_cases h : k' == k
    · rw [if_pos h]
      have hk : k' = k := by simpa using h
      subst hk
      simpa using And.intro hk' hrest
    · rw [if_neg h]
      simp only [List.map_cons, List.nodup_cons]
      refine ⟨fun hmem => ?_, nodup_keys_dictSet k v rest hrest⟩
      rcases (mem_keys_dictSet k' k v rest).mp hmem with hm | hm
      · exact hk' hm
      · exact h (by simpa using hm)

/-- Every entry after a dict assignment is an old entry or the assigned pair. -/
theorem mem_dictSet (lv : String × Int) (k : String) (v : Int) :
    ∀ d : ReportRow, lv ∈ dictSet d k v → lv ∈ d ∨ lv = (k, v)
  | [] => by simp [dictSet]
  | (k', v') :: rest => by
    unfold dictSet
    by_cases h : k' == k
    · rw [if_pos h]
      simp only [List.mem_cons]
      tauto
    · rw [if_neg h]
      simp only [List.mem_cons]
      intro hm
      rcases hm with hm | hm
      · exact Or.inl (Or.inl hm)
      · rcases mem_dictSet lv k v rest hm with h2 | h2
        · exact Or.inl (Or.inr h2)
        · exact Or.inr h2

/-- The projection loop never adds a key whose every occurrence in the
remaining report definition resolves to no value. -/
theorem processItems_not_mem_keys (facts : FactsRepository) (a label : String) :
    ∀ (items : ReportItems) (data row : ReportRow),
      processItems facts a items data = some row →
      (∀ k, (label, k) ∈ items → ∀ t c, splitKey k = some (t, c) →
        conceptValue facts t c a = none) →
      label ∉ data.map Prod.fst → label ∉ row.map Prod.fst := by
  intro items
  induction items with
  | nil =>
    intro data row h _ hdata
    unfold processItems at h
    exact Option.some.inj h ▸ hdata
  | cons p rest ih =>
    obtain ⟨l, k⟩ := p
    intro data row h hnone hdata
    cases hsk : splitKey k with
    | none =>
      rw [processItems_cons_bad facts a l k rest data hsk] at h
      exact absurd h (by simp)
    | some tc =>
      obtain ⟨t, c⟩ := tc
      cases hcv : conceptValue facts t c a with
      | none =>
        rw [processItems_cons_skip facts a l k t c rest data hsk hcv] at h
        exact ih data row h (fun k' hk' => hnone k' (List.mem_cons_of_mem _ hk')) hdata
      | some value =>
        rw [processItems_cons_set facts a l k t c value rest data hsk hcv] at h
        by_cases hl : l = label
        · subst hl
          rw [hnone k (List.mem_cons_self _ _) t c hsk] at hcv
          exact absurd hcv (by simp)
        · refine ih _ row h (fun k' hk' => hnone k' (List.mem_cons_of_mem _ hk')) ?_
          intro hmem
          rcases (mem_keys_dictSet label l value data).mp hmem with hm | hm
          · exact hdata hm
          · exact hl hm.symm

/-- The projection loop is total on report definitions whose every item key
splits into exactly two fields. -/
theorem processItems_total (facts : FactsRepository) (a : String) :
    ∀ (items : ReportItems) (data : ReportRow),
      (∀ p ∈ items, (splitKey p.2).isSome) →
      ∃ row, processItems facts a items data = some row := by
  intro items
  induction items with
  | nil => exact fun data _ => ⟨data, rfl⟩
  | cons p rest ih =>
    obtain ⟨l, k⟩ := p
    intro data hwf
    obtain ⟨⟨t, c⟩, hsk⟩ := Option.isSome_iff_exists.mp (hwf (l, k) (List.mem_cons_self _ _))
    have hrest : ∀ p ∈ rest, (splitKey p.2).isSome :=
      fun p hp => hwf p (List.mem_cons_of_mem _ hp)
    cases hcv : conceptValue facts t c a with
    | none =>
      obtain ⟨row, hr⟩ := ih data hrest
      exact ⟨row, (processItems_cons_skip facts a l k t c rest data hsk hcv).trans hr⟩
    | some value =>
      obtain ⟨row, hr⟩ := ih (dictSet data l value) hrest
      exact ⟨row, (processItems_cons_set facts a l k t c value rest data hsk hcv).trans hr⟩

/-- When every well-formed item key of the remaining definition resolves to no
value, the projection loop returns its accumulator unchanged. -/
theorem processItems_no_match (facts : FactsRepository) (a : String) :
    ∀ (items : ReportItems) (data : ReportRow),
      (∀ p ∈ items, (splitKey p.2).isSome) →
      (∀ p ∈ items, ∀ t c, splitKey p.2 = some (t, c) →
        conceptValue facts t c a = none) →
      processItems facts a items data = some data := by
  intro items
  induction items with
  | nil => exact fun data _ _ => rfl
  | cons p rest ih =>
    obtain ⟨l, k⟩ := p
    intro data hwf hnone
    obtain ⟨⟨t, c⟩, hsk⟩ := Option.isSome_iff_exists.mp (hwf (l, k) (List.mem_cons_self _ _))
    have hcv : conceptValue facts t c a = none :=
      hnone (l, k) (List.mem_cons_self _ _) t c hsk
    exact (processItems_cons_skip facts a l k t c rest data hsk hcv).trans
      (ih data (fun p hp => hwf p (List.mem_cons_of_mem _ hp))
        (fun p hp => hnone p (List.mem_cons_of_mem _ hp)))

/-- A row entry is justified when its label is bound in the report definition
to a `taxonomy:concept` key whose item record carries, as first USD match for
the target accession, exactly the entry's value. -/
def GoodEntry (facts : FactsRepository) (a : String) (items : ReportItems)
    (lv : String × Int) : Prop :=
  ∃ item_key taxonomy concept item_data obs e,
    (lv.1, item_key) ∈ items ∧ splitKey item_key = some (taxonomy, concept) ∧
    conceptLookup facts taxonomy concept = some item_data ∧
    usdEntries item_data = some obs ∧
    obs.find? (fun o => o.accn == a) = some e ∧ lv.2 = e.val

/-- Invariant of the projection loop: key-uniqueness and justification of
every entry are preserved. -/
theorem processItems_entries_good (facts : FactsRepository) (a : String)
    (items0 : ReportItems) :
    ∀ (items : ReportItems) (data row : ReportRow),
      processItems facts a items data = some row →
      (∀ p ∈ items, p ∈ items0) →
      (∀ lv ∈ data, GoodEntry facts a items0 lv) →
      (data.map Prod.fst).Nodup →
      (∀ lv ∈ row, GoodEntry facts a items0 lv) ∧ (row.map Prod.fst).Nodup := by
  intro items
  induction items with
  | nil =>
    intro data row h _ hdata hnodup
    unfold processItems at h
    exact Option.some.inj h ▸ ⟨hdata, hnodup⟩
  | cons p rest ih =>
    obtain ⟨l, k⟩ := p
    intro data row h hsub hdata hnodup
    cases hsk : splitKey k with
    | none =>
      rw [processItems_cons_bad facts a l k rest data hsk] at h
      exact absurd h (by simp)
    | some tc =>
      obtain ⟨t, c⟩ := tc
      have hsub' : ∀ p ∈ rest, p ∈ items0 :=
        fun p hp => hsub p (List.mem_cons_of_mem _ hp)
      cases hcv : conceptValue facts t c a with
      | none =>
        rw [processItems_cons_skip facts a l k t c rest data hsk hcv] at h
        exact ih data row h hsub' hdata hnodup
      | some value =>
        rw [processItems_cons_set facts a l k t c value rest data hsk hcv] at h
        refine ih _ row h hsub' ?_ (nodup_keys_dictSet l value data hnodup)
        intro lv hlv
        rcases mem_dictSet lv l value data hlv with hm | hm
        · exact hdata lv hm
        · subst hm
          obtain ⟨item_data, hcl, hgv⟩ := conceptValue_some_elim facts t c a value hcv
          obtain ⟨obs, e, hu, hf, hv⟩ := get_value_some_elim item_data a value hgv
          exact ⟨k, t, c, item_data, obs, e,
            hsub (l, k) (List.mem_cons_self _ _), hsk, hcl, hu, hf, hv⟩

/-! ### Claim theorems -/

/-- C1: for every ItemRecord and target accession, the item value lookup
returns the numeric value of the first Observation in the record's USD unit
sequence whose accession field equals the target, and signals not-found when
no Observation matches. -/
theorem lookup_returns_first_match (item : ItemData) (obs : List Observation)
    (a : String) (h : usdEntries item = some obs) :
    (∀ v : Int, get_value_for_accession item a = some v ↔
      ∃ front e back, obs = front ++ e :: back ∧ e.accn = a ∧ e.val = v ∧
        ∀ e' ∈ front, e'.accn ≠ a) ∧
    (get_value_for_accession item a = none ↔ ∀ e ∈ obs, e.accn ≠ a) := by
  unfold get_value_for_accession
  rw [h]
  constructor
  · intro v
    simp only [Option.map_eq_some']
    constructor
    · rintro ⟨e, he, hev⟩
      rw [List.find?_eq_some] at he
      obtain ⟨hpe, front, back, heq, hfront⟩ := he
      refine ⟨front, e, back, heq, by simpa using hpe, hev, fun e' he' => ?_⟩
      simpa using hfront e' he'
    · rintro ⟨front, e, back, heq, heacc, hev, hfront⟩
      refine ⟨e, ?_, hev⟩
      rw [List.find?_eq_some]
      exact ⟨by simpa using heacc, front, back, heq, fun e' he' => by simpa using hfront e' he'⟩
  · simp [List.find?_eq_none]

/-- Witness for C1 at the spec's worked example `[{accn:"A",val:10},
{accn:"B",val:20}]`: accession `A` yields 10, `B` yields 20, `C` not-found. -/
theorem lookup_returns_first_match_witness :
    get_value_for_accession exItemAB "A" = some 10 ∧
    get_value_for_accession exItemAB "B" = some 20 ∧
    get_value_for_accession exItemAB "C" = none := by
  refine ⟨((lookup_returns_first_match exItemAB [⟨"A", 10⟩, ⟨"B", 20⟩] "A" rfl).1 10).mpr
      ⟨[], ⟨"A", 10⟩, [⟨"B", 20⟩], rfl, rfl, rfl, by simp⟩,
    ((lookup_returns_first_match exItemAB [⟨"A", 10⟩, ⟨"B", 20⟩] "B" rfl).1 20).mpr
      ⟨[⟨"A", 10⟩], ⟨"B", 20⟩, [], rfl, rfl, rfl, by decide⟩,
    (lookup_returns_first_match exItemAB [⟨"A", 10⟩, ⟨"B", 20⟩] "C" rfl).2.mpr (by decide)⟩

/-- C3: the item value lookup never returns a value taken from an Observation
whose accession differs from the target — any returned value is the `val` of
some USD Observation whose `accn` equals the target; and projecting the spec's
all-`X1` repository at target accession `X2` yields the empty ReportRow. -/
theorem lookup_accession_isolation :
    (∀ (item : ItemData) (a : String) (v : Int),
      get_value_for_accession item a = some v →
      ∃ obs, usdEntries item = some obs ∧ ∃ e ∈ obs, e.accn = a ∧ e.val = v) ∧
    process_financial_statement exRepoX1 exItemsRN "2024-01-01" "X2" = some [] := by
  constructor
  · intro item a v hv
    unfold get_value_for_accession at hv
    cases hu : usdEntries item with
    | none => rw [hu] at hv; exact absurd hv (by simp)
    | some obs =>
      rw [hu, Option.map_eq_some'] at hv
      obtain ⟨e, he, hev⟩ := hv
      exact ⟨obs, rfl, e, List.mem_of_find?_eq_some he,
        by simpa using List.find?_some he, hev⟩
  · rfl

/-- Witness for C3's universally quantified part, at the `A`/`B` example
record with target accession `A` and value 10. -/
theorem lookup_accession_isolation_witness :
    ∃ obs, usdEntries exItemAB = some obs ∧ ∃ e ∈ obs, e.accn = "A" ∧ e.val = 10 :=
  lookup_accession_isolation.1 exItemAB "A" 10 rfl

/-- C6: when the USD unit key is absent, or present with an empty observation
sequence, the lookup returns not-found, and the two cases are
indistinguishable (both are `none`). -/
theorem lookup_unit_absent_or_empty (item : ItemData) (a : String) :
    (usdEntries item = none → get_value_for_accession item a = none) ∧
    (usdEntries item = some [] → get_value_for_accession item a = none) := by
  unfold get_value_for_accession
  exact ⟨fun h => by rw [h], fun h => by rw [h]; rfl⟩

/-- Witness for C6: a record with no unit dict at all, and a record whose USD
sequence is empty, both yield not-found. -/
theorem lookup_unit_absent_or_empty_witness :
    get_value_for_accession ⟨none⟩ "A" = none ∧
    get_value_for_accession ⟨some [("USD", [])]⟩ "A" = none :=
  ⟨(lookup_unit_absent_or_empty ⟨none⟩ "A").1 rfl,
   (lookup_unit_absent_or_empty ⟨some [("USD", [])]⟩ "A").2 rfl⟩

/-- C7: the three built-in ReportDefinitions contain exactly the specified
(label, taxonomy:concept) pairs in the declared order, all under `us-gaap`. -/
theorem report_definitions_spec :
    income_items =
      [("Revenue", "us-gaap:Revenues"),
       ("Cost of Revenue", "us-gaap:CostOfRevenue"),
       ("Gross Profit", "us-gaap:GrossProfit"),
       ("Operating Expenses", "us-gaap:OperatingExpenses"),
       ("Operating Income", "us-gaap:OperatingIncomeLoss"),
       ("Net Income", "us-gaap:NetIncomeLoss")] ∧
    cash_flow_items =
      [("Cash from Operating Activities", "us-gaap:NetCashProvidedByUsedInOperatingActivities"),
       ("Cash from Investing Activities", "us-gaap:NetCashProvidedByUsedInInvestingActivities"),
       ("Cash from Financing Activities", "us-gaap:NetCashProvidedByUsedInFinancingActivities"),
       ("Net Change in Cash", "us-gaap:NetIncreaseDecreaseInCash")] ∧
    balance_sheet_items =
      [("Total Assets", "us-gaap:Assets"),
       ("Total Liabilities", "us-gaap:Liabilities"),
       ("Total Equity", "us-gaap:StockholdersEquity"),
       ("Cash and Cash Equivalents", "us-gaap:CashAndCashEquivalentsAtCarryingValue"),
       ("Total Current Assets", "us-gaap:AssetsCurrent"),
       ("Total Current Liabilities", "us-gaap:LiabilitiesCurrent")] ∧
    (∀ p ∈ income_items ++ cash_flow_items ++ balance_sheet_items,
      (splitKey p.2).map Prod.fst = some "us-gaap") := by
  refine ⟨rfl, rfl, rfl, ?_⟩
  decide

/-- C9: the projection's output does not depend on the `filing_date` argument:
the same ReportRow results for any two filing dates, for the generic
projection and each of the three statement processors. -/
theorem projection_ignores_filing_date (facts : FactsRepository)
    (items : ReportItems) (a fd fd' : String) :
    process_financial_statement facts items fd a =
      process_financial_statement facts items fd' a ∧
    process_income_statement facts fd a = process_income_statement facts fd' a ∧
    process_cash_flow_statement facts fd a = process_cash_flow_statement facts fd' a ∧
    process_balance_sheet facts fd a = process_balance_sheet facts fd' a :=
  ⟨rfl, rfl, rfl, rfl⟩

/-- C10: an item record with no `units` key at all yields not-found for every
target accession, rather than failing. -/
theorem lookup_total_without_units (item : ItemData) (a : String)
    (h : item.units = none) : get_value_for_accession item a = none := by
  have hu : usdEntries item = none := by unfold usdEntries; rw [h]
  unfold get_value_for_accession
  rw [hu]

/-- Witness for C10 at the record `{}` (no `units` key). -/
theorem lookup_total_without_units_witness :
    get_value_for_accession ⟨none⟩ "X" = none :=
  lookup_total_without_units ⟨none⟩ "X" rfl

/-- C2: a label whose taxonomy or concept is absent from the repository, or
whose lookup returns not-found for the target accession, is omitted from the
resulting ReportRow entirely; and projecting `{X ↦ ns:a, Y ↦ ns:b}` against a
repository containing only concept `a` at the target accession yields exactly
`{X ↦ 42}` with key `Y` absent. -/
theorem projection_omits_missing :
    (∀ (facts : FactsRepository) (items : ReportItems) (fd a label : String)
      (row : ReportRow),
      process_financial_statement facts items fd a = some row →
      (∀ k, (label, k) ∈ items → ∀ t c, splitKey k = some (t, c) →
        conceptValue facts t c a = none) →
      label ∉ row.map Prod.fst) ∧
    process_financial_statement exRepoA exItemsXY "2024-01-01" "T" = some [("X", 42)] := by
  constructor
  · intro facts items fd a label row h hnone
    exact processItems_not_mem_keys facts a label items [] row h hnone (by simp)
  · rfl

/-- Witness for C2: at the worked example, key `Y` is absent from the row. -/
theorem projection_omits_missing_witness :
    "Y" ∉ ([("X", 42)] : ReportRow).map Prod.fst := by
  refine projection_omits_missing.1 exRepoA exItemsXY "2024-01-01" "T" "Y"
    [("X", 42)] rfl ?_
  intro k hk t c hsplit
  simp only [exItemsXY, List.mem_cons, List.not_mem_nil, or_false] at hk
  rcases hk with hk | hk
  · have hbad : ("Y" : String) = "X" := congrArg Prod.fst hk
    exact absurd hbad (by decide)
  · have hkk : k = "ns:b" := congrArg Prod.snd hk
    subst hkk
    have htc : (t, c) = ("ns", "b") := Option.some.inj (hsplit.symm.trans rfl)
    cases htc
    rfl

/-- C4: for every repository, well-formed ReportDefinition (every item key
splits into exactly two fields) and target accession, the report projection
never fails — its error branch is unreachable; and, universally, when no label
of the definition matches any concept/accession in the repository (every
label's key resolves to no value), the result is the empty ReportRow rather
than an error. -/
theorem projection_never_fails :
    (∀ (facts : FactsRepository) (items : ReportItems) (fd a : String),
      (∀ p ∈ items, (splitKey p.2).isSome) →
      ∃ row, process_financial_statement facts items fd a = some row) ∧
    (∀ (facts : FactsRepository) (items : ReportItems) (fd a : String),
      (∀ p ∈ items, (splitKey p.2).isSome) →
      (∀ p ∈ items, ∀ t c, splitKey p.2 = some (t, c) →
        conceptValue facts t c a = none) →
      process_financial_statement facts items fd a = some []) := by
  constructor
  · intro facts items fd a hwf
    exact processItems_total facts a items [] hwf
  · intro facts items fd a hwf hnone
    exact processItems_no_match facts a items [] hwf hnone

/-- Witness for C4: totality at the spec's end-to-end repository and
definition, and the empty row for the real income-statement definition
against an empty repository, where no label can match. -/
theorem projection_never_fails_witness :
    (∃ row, process_financial_statement exRepoX1 exItemsRN "2024-01-01" "X1" = some row) ∧
    process_financial_statement [] income_items "2024-01-01" "Z" = some [] :=
  ⟨projection_never_fails.1 exRepoX1 exItemsRN "2024-01-01" "X1" (by decide),
   projection_never_fails.2 [] income_items "2024-01-01" "Z" (by decide)
     (fun _ _ _ _ _ => rfl)⟩

/-- C5: every produced ReportRow binds only labels of its ReportDefinition,
at most once each, and each bound value is the `val` of the first USD
Observation (in repository iteration order) matching the target accession
under the label's `taxonomy:concept` key. -/
theorem projection_row_wellformed (facts : FactsRepository) (items : ReportItems)
    (fd a : String) (row : ReportRow)
    (h : process_financial_statement facts items fd a = some row) :
    (∀ lv ∈ row, lv.1 ∈ items.map Prod.fst) ∧
    (row.map Prod.fst).Nodup ∧
    (∀ lv ∈ row, GoodEntry facts a items lv) := by
  obtain ⟨hgood, hnodup⟩ := processItems_entries_good facts a items items [] row h
    (fun p hp => hp) (by simp) (by simp)
  refine ⟨fun lv hlv => ?_, hnodup, hgood⟩
  obtain ⟨item_key, _, _, _, _, _, hmem, _⟩ := hgood lv hlv
  exact List.mem_map.mpr ⟨(lv.1, item_key), hmem, rfl⟩

/-- Witness for C5 at the spec's end-to-end scenario (which also checks the
produced row is `{Revenue ↦ 1000, Net Income ↦ 200}`). -/
theorem projection_row_wellformed_witness :
    (∀ lv ∈ ([("Revenue", 1000), ("Net Income", 200)] : ReportRow),
      lv.1 ∈ exItemsRN.map Prod.fst) ∧
    (([("Revenue", 1000), ("Net Income", 200)] : ReportRow).map Prod.fst).Nodup ∧
    (∀ lv ∈ ([("Revenue", 1000), ("Net Income", 200)] : ReportRow),
      GoodEntry exRepoX1 "X1" exItemsRN lv) :=
  projection_row_wellformed exRepoX1 exItemsRN "2024-01-01" "X1"
    [("Revenue", 1000), ("Net Income", 200)] rfl

/-- C8: permuting the USD observation sequence does not change the looked-up
value when exactly one Observation matches the target accession. -/
theorem lookup_order_independent (item item' : ItemData)
    (obs obs' : List Observation) (a : String)
    (h : usdEntries item = some obs) (h' : usdEntries item' = some obs')
    (hperm : obs.Perm obs')
    (hone : (obs.filter (fun e => e.accn == a)).length = 1) :
    get_value_for_accession item a = get_value_for_accession item' a := by
  unfold get_value_for_accession
  simp only [h, h']
  have hfilter : List.Perm (obs.filter (fun e => e.accn == a))
      (obs'.filter (fun e => e.accn == a)) :=
    hperm.filter _
  obtain ⟨e, he⟩ := List.length_eq_one.mp hone
  rw [he] at hfilter
  have he' : obs'.filter (fun e => e.accn == a) = [e] :=
    List.perm_singleton.mp hfilter.symm
  rw [← List.filter_head?, ← List.filter_head?, he, he']

/-- Witness for C8: swapping the two observations of the `A`/`B` example
record leaves the value looked up at accession `A` unchanged. -/
theorem lookup_order_independent_witness :
    get_value_for_accession exItemAB "A" = get_value_for_accession exItemBA "A" :=
  lookup_order_independent exItemAB exItemBA
    [⟨"A", 10⟩, ⟨"B", 20⟩] [⟨"B", 20⟩, ⟨"A", 10⟩] "A" rfl rfl
    (List.Perm.swap (Observation.mk "B" 20) (Observation.mk "A" 10) []) (by decide)

end EdgarSec
